import Mathlib

/-!
# p2p-bitcoin-wallet — verification of the synchronization core

Shallow embedding of the peer-to-peer wallet-state synchronization code
(the Hyperswarm script of the repository: `handlePeerConnection`,
`broadcastState`, `retryWithBackoff` and the transaction broadcast loop)
and of the wallet parameter validation (`src/wallet/wallet.js`).

Modelling conventions:
* JSON values produced by `JSON.parse` are the inductive `JVal`
  (`JSON.parse` never yields `undefined`; an absent field is `Option.none`).
* An inbound data chunk either fails `JSON.parse` (`Chunk.unparseable`) or
  yields a `JVal` (`Chunk.parsed v`); byte-level JSON parsing itself is
  abstracted, which is the granularity at which the handler observes it.
* JavaScript exceptions thrown inside the `connection.on('data')` callback
  are modelled by a `threw : Bool` component of the result; side effects
  performed before the throw persist (globals are mutated in place).
* The JS `>` comparison follows the ECMAScript abstract relational
  comparison on primitives: two strings compare lexicographically, any
  other pair of primitives through `ToNumber`, and a `NaN` operand makes
  the comparison false.  `ToNumber` on arrays/objects (which would go
  through `ToPrimitive`) is modelled as NaN, and numeric strings are parsed
  in plain decimal form only (no hex / exponent forms) — a documented model
  boundary never exercised by well-formed wire messages.
-/

/-- A JSON value as produced by `JSON.parse`. -/
inductive JVal where
  | jnull : JVal
  | jbool : Bool → JVal
  | jnum  : ℚ → JVal
  | jstr  : String → JVal
  | jarr  : List JVal → JVal
  | jobj  : List (String × JVal) → JVal

/-- Field lookup in a parsed JSON object: `JSON.parse` keeps the *last*
occurrence of a duplicated key, so the scan keeps the last match. -/
def lookupLast (fs : List (String × JVal)) (k : String) : Option JVal :=
  fs.foldl (fun acc p => if p.1 = k then some p.2 else acc) none

/-- JS property access `v.k` for values `JSON.parse` can produce, in a
position where it does not throw: objects look the key up, every other
non-null value yields `undefined` (`none`).  Access on `null` throws and is
handled at each use site before calling this. -/
def jvField (v : JVal) (k : String) : Option JVal :=
  match v with
  | .jobj fs => lookupLast fs k
  | _ => none

/-- Whitespace trimming at both ends, as JS `String.prototype.trim` (the
exact JS whitespace set also has exotic members like NBSP; the usual ASCII
whitespace is what `Char.isWhitespace` covers — a model boundary). -/
def jsTrim (s : String) : String :=
  ⟨((s.data.dropWhile Char.isWhitespace).reverse.dropWhile
      Char.isWhitespace).reverse⟩

/-- Parse the trimmed text of a JS numeric string: optional sign, then
`digits`, `digits.digits`, `digits.` or `.digits` (plain decimal forms
only — a model boundary, see the header).  `none` is NaN. -/
def parseDecCore (cs : List Char) : Option ℚ :=
  let ip := cs.takeWhile Char.isDigit
  let rest := cs.dropWhile Char.isDigit
  let natOf : List Char → ℕ := fun ds => ds.foldl (fun a c => a * 10 + (c.toNat - 48)) 0
  match rest with
  | [] => if ip.isEmpty then none else some (natOf ip)
  | '.' :: fp =>
      if fp.all Char.isDigit then
        if ip.isEmpty ∧ fp.isEmpty then none
        else some ((natOf ip : ℚ) + (natOf fp : ℚ) / ((10 : ℚ) ^ fp.length))
      else none
  | _ => none

/-- JS `ToNumber` on a string: trimmed empty string is `0`, a signed plain
decimal literal is its value, anything else is NaN (`none`). -/
def parseDec (s : String) : Option ℚ :=
  let t := jsTrim s
  if t = "" then some 0
  else
    match t.data with
    | '-' :: cs => (parseDecCore cs).map (fun q => -q)
    | '+' :: cs => parseDecCore cs
    | cs => parseDecCore cs

/-- JS `ToNumber` on a `JSON.parse` value; `none` is NaN.  Arrays and
objects (which would pass through `ToPrimitive`) are modelled as NaN — a
model boundary, see the header.  A plain object is genuinely NaN in JS. -/
def toNum (v : JVal) : Option ℚ :=
  match v with
  | .jnull => some 0
  | .jbool b => some (if b then 1 else 0)
  | .jnum q => some q
  | .jstr s => parseDec s
  | .jarr _ => none
  | .jobj _ => none

/-- The JS `a > b` comparison on two defined values (ECMAScript abstract
relational comparison): both strings compare lexicographically, otherwise
both sides go through `ToNumber` and a NaN makes the comparison false. -/
def jsGT (a b : JVal) : Bool :=
  match a, b with
  | .jstr s1, .jstr s2 => decide (s2 < s1)
  | a, b =>
      match toNum a, toNum b with
      | some x, some y => decide (y < x)
      | _, _ => false

/-- `message.type === 'kind'`: strict equality of a possibly-undefined
property against a string literal. -/
def typeIs (t : Option JVal) (s : String) : Bool :=
  match t with
  | some (.jstr s2) => s2 = s
  | _ => false

/-- The elements produced by spreading a (possibly absent) value, as in
`transactionHistory.push(...v)`: an array spreads to its elements, a string
spreads to its one-character strings (strings are iterable in JS), and any
other value (`undefined`, `null`, booleans, numbers, plain objects) is not
iterable, so the spread throws (`none`). -/
def spreadElems (v : Option JVal) : Option (List JVal) :=
  match v with
  | some (.jarr xs) => some xs
  | some (.jstr s) => some (s.data.map (fun c => .jstr (String.singleton c)))
  | _ => none

/-- The process-local mutable wallet state of the script: the globals
`currentBalance` and `transactionHistory`.  `currentBalance` is a JS value
(it is assigned `message.data.balance` verbatim, whatever that is). -/
structure WalletView where
  balance : JVal
  history : List JVal

/-- Result of running the body of the `connection.on('data')` handler on a
successfully parsed message: the wallet view after the call (mutations made
before a throw persist), whether the body threw (landing in the `catch`),
and whether a state push (`broadcastState`) was triggered. -/
def processParsed (w : WalletView) (msg : JVal) : WalletView × Bool × Bool :=
  match msg with
  | .jnull => (w, true, false)        -- `message.type` on null throws
  | _ =>
    let t := jvField msg "type"
    if typeIs t "transaction" then
      match jvField msg "data" with
      | none => (w, true, false)        -- destructuring undefined throws
      | some .jnull => (w, true, false) -- destructuring null throws
      | some dv => ({ w with history := w.history ++ [dv] }, false, false)
    else if typeIs t "state-request" then
      (w, false, true)                  -- broadcastState(connection)
    else if typeIs t "state" then
      match jvField msg "data" with
      | none => (w, true, false)        -- `undefined.balance` throws
      | some .jnull => (w, true, false) -- `null.balance` throws
      | some dv =>
        match jvField dv "balance" with
        | none => (w, false, false)     -- `undefined > x` is false: no-op
        | some bv =>
          if jsGT bv w.balance then
            match spreadElems (jvField dv "transactions") with
            | some es =>
                ({ balance := bv, history := w.history ++ es }, false, false)
            | none =>
                -- `currentBalance` was already assigned; the spread throws
                ({ balance := bv, history := w.history }, true, false)
          else (w, false, false)
    else
      (w, false, false)                 -- unknown type: warn only

/-- An inbound data chunk: either `JSON.parse` fails on it or it parses to
a JSON value. -/
inductive Chunk where
  | unparseable : Chunk
  | parsed : JVal → Chunk

/-- Whether handling the chunk lands in the `catch` block. -/
def chunkThrows (w : WalletView) (c : Chunk) : Bool :=
  match c with
  | .unparseable => true
  | .parsed v => (processParsed w v).2.1

/-- One peer session of `handlePeerConnection`: the shared wallet view, the
session-scoped `malformedMessagesCount`, whether `connection.destroy()` was
called, and how many state pushes were sent on this connection. -/
structure Session where
  view : WalletView
  malformed : ℕ
  closed : Bool
  sent : ℕ

/-- One delivery of a `'data'` event to the session.  A destroyed
connection emits no further `'data'` events, so a closed session is inert.
Otherwise the handler body runs; on a throw the `catch` increments
`malformedMessagesCount` and destroys the connection once the count
exceeds 3 (sending nothing to the peer). -/
def sessionStep (s : Session) (c : Chunk) : Session :=
  if s.closed then s
  else
    match c with
    | .unparseable =>
        { s with malformed := s.malformed + 1,
                 closed := decide (s.malformed + 1 > 3) }
    | .parsed v =>
        let r := processParsed s.view v
        if r.2.1 then
          { s with view := r.1, malformed := s.malformed + 1,
                   closed := decide (s.malformed + 1 > 3) }
        else
          { s with view := r.1,
                   sent := s.sent + (if r.2.2 then 1 else 0) }

/-- A whole inbound byte-chunk sequence delivered to one session. -/
def sessionRun (s : Session) (cs : List Chunk) : Session :=
  cs.foldl sessionStep s

/-- The wire shape `broadcastState` produces and peers send back:
`{type: 'state', data: {walletName, balance, transactions}}`. -/
def stateMsg (wn : String) (bal : JVal) (txs : JVal) : JVal :=
  .jobj [("type", .jstr "state"),
         ("data", .jobj [("walletName", .jstr wn), ("balance", bal),
                         ("transactions", txs)])]

/-- A `state` wire message whose `transactions` field may be absent. -/
def stateMsgOpt (wn : String) (bal : JVal) (txs : Option JVal) : JVal :=
  .jobj [("type", .jstr "state"),
         ("data", .jobj ([("walletName", .jstr wn), ("balance", bal)] ++
                         (match txs with
                          | some v => [("transactions", v)]
                          | none => [])))]

/-- The wire shape of a `transaction` message:
`{type: 'transaction', data: record}`. -/
def transactionMsg (d : JVal) : JVal :=
  .jobj [("type", .jstr "transaction"), ("data", d)]

/-- Iterate the handler over a sequence of well-formed `state` messages
(each given by wallet name, numeric balance, transaction array), the
shape a claim about "sequences of state messages" quantifies over. -/
def applyStates (w : WalletView) (msgs : List (String × ℚ × List JVal)) :
    WalletView :=
  msgs.foldl
    (fun w m => (processParsed w (stateMsg m.1 (.jnum m.2.1) (.jarr m.2.2))).1)
    w

/-- `swarm.connections.forEach((conn) => conn.write(serialized))` with no
per-connection error handling: each connection is a flag saying whether the
synchronous write succeeds.  Returns how many connections were written
before the loop ended and whether a write threw (aborting the `forEach`
and propagating to the top-level handler). -/
def broadcastTransaction : List Bool → ℕ × Bool
  | [] => (0, false)
  | ok :: rest =>
      if ok then
        let r := broadcastTransaction rest
        (r.1 + 1, r.2)
      else (0, true)

/-- The loop of `retryWithBackoff`: `remaining` attempts are left, the next
call is attempt number `attempt` with current backoff `delay`.  Returns the
outcome (`none` when the loop falls through without running, i.e. the JS
function returns `undefined` for `retries = 0`), the number of calls made,
and the list of delays awaited between attempts. -/
def retryLoop (fn : ℕ → Except String ℕ) :
    ℕ → ℕ → ℕ → Option (Except String ℕ) × ℕ × List ℕ
  | 0, _, _ => (none, 0, [])
  | remaining + 1, attempt, delay =>
      match fn attempt with
      | .ok a => (some (.ok a), 1, [])
      | .error e =>
          if remaining = 0 then (some (.error e), 1, [])
          else
            let r := retryLoop fn remaining (attempt + 1) (delay * 2)
            (r.1, r.2.1 + 1, delay :: r.2.2)

/-- `retryWithBackoff(fn)` with the default `retries = 5`, `delay = 500`. -/
def retryWithBackoff (fn : ℕ → Except String ℕ) :
    Option (Except String ℕ) × ℕ × List ℕ :=
  retryLoop fn 5 1 500

/-- The `walletName` argument as JS sees it: a string or a non-string. -/
inductive WName where
  | str : String → WName
  | nonStr : WName
deriving DecidableEq, Repr

/-- The `amount` argument as a JS number: NaN or an actual number. -/
inductive Amt where
  | nan : Amt
  | num : ℚ → Amt
deriving DecidableEq, Repr

/-- `validateWalletName`: throws unless the argument is a string whose
trimmed form is non-empty. -/
def validateWalletName (wn : WName) : Except String Unit :=
  match wn with
  | .nonStr => .error "Invalid wallet name. It must be a non-empty string."
  | .str s =>
      if jsTrim s = "" then
        .error "Invalid wallet name. It must be a non-empty string."
      else .ok ()

/-- `validateAmount`: throws when `isNaN(amount) || amount <= 0`. -/
def validateAmount (a : Amt) : Except String Unit :=
  match a with
  | .nan => .error "Invalid amount. It must be a positive number."
  | .num q =>
      if q ≤ 0 then .error "Invalid amount. It must be a positive number."
      else .ok ()

/-- `sendBitcoin(walletName, recipientAddress, amount)`: validates the
wallet name, then the amount, then issues the one `sendtoaddress` RPC call
(modelled by `rpcSend`).  Returns the outcome together with the trace of
`sendtoaddress` calls issued; the `catch` in the source only logs and
rethrows, so it does not change the outcome. -/
def sendBitcoin (wn : WName) (addr : String) (amount : Amt)
    (rpcSend : String → Amt → Except String String) :
    Except String String × List (String × Amt) :=
  match validateWalletName wn with
  | .error e => (.error e, [])
  | .ok _ =>
      match validateAmount amount with
      | .error e => (.error e, [])
      | .ok _ =>
          match rpcSend addr amount with
          | .ok tx => (.ok tx, [(addr, amount)])
          | .error e => (.error e, [(addr, amount)])

/-! ## Helper lemmas -/

/-- `if q < b then b else q` is `max q b`. -/
theorem if_lt_eq_max (q b : ℚ) : (if q < b then b else q) = max q b := by
  rcases lt_or_ge q b with hlt | hge
  · simp [hlt, max_eq_right hlt.le]
  · simp [not_lt.mpr hge, max_eq_left hge]

/-- Evaluating the handler on a well-formed `state` message with a numeric
local balance. -/
theorem processParsed_stateMsg (q b : ℚ) (h : List JVal) (wn : String)
    (ts : List JVal) :
    processParsed ⟨.jnum q, h⟩ (stateMsg wn (.jnum b) (.jarr ts)) =
      if q < b then (⟨.jnum b, h ++ ts⟩, false, false)
      else (⟨.jnum q, h⟩, false, false) := by
  by_cases hqb : q < b
  · simp [processParsed, stateMsg, jvField, lookupLast, typeIs, jsGT, toNum,
      spreadElems, hqb]
  · simp [processParsed, stateMsg, jvField, lookupLast, typeIs, jsGT, toNum,
      spreadElems, hqb]

/-- Evaluating the handler on a well-formed `transaction` message. -/
theorem processParsed_transactionMsg (w : WalletView)
    (fs : List (String × JVal)) :
    processParsed w (transactionMsg (.jobj fs)) =
      ({ w with history := w.history ++ [.jobj fs] }, false, false) := by
  simp [processParsed, transactionMsg, jvField, lookupLast, typeIs]

/-! ## Claim theorems -/

/-- C1: applying a `state` message to a WalletView replaces the local
balance and appends the whole incoming transactions list (in order, as a
batch) when the incoming balance is strictly greater than the local one,
and leaves both the balance and the history completely unchanged when the
incoming balance is less than or equal to the local one. -/
theorem state_merge_rule (q b : ℚ) (h0 : List JVal) (wn : String)
    (ts : List JVal) :
    (q < b → processParsed ⟨.jnum q, h0⟩ (stateMsg wn (.jnum b) (.jarr ts))
        = (⟨.jnum b, h0 ++ ts⟩, false, false))
    ∧ (b ≤ q → processParsed ⟨.jnum q, h0⟩ (stateMsg wn (.jnum b) (.jarr ts))
        = (⟨.jnum q, h0⟩, false, false)) := by
  constructor
  · intro hlt
    rw [processParsed_stateMsg, if_pos hlt]
  · intro hle
    rw [processParsed_stateMsg, if_neg (not_lt.mpr hle)]

/-- Witness for C1: a greater incoming balance (1 over 0) merges, a smaller
one (1 under 2) is a no-op. -/
theorem state_merge_rule_witness :
    processParsed ⟨.jnum 0, []⟩ (stateMsg "w" (.jnum 1) (.jarr [.jnull]))
        = (⟨.jnum 1, [.jnull]⟩, false, false)
    ∧ processParsed ⟨.jnum 2, []⟩ (stateMsg "w" (.jnum 1) (.jarr [.jnull]))
        = (⟨.jnum 2, []⟩, false, false) :=
  ⟨(state_merge_rule 0 1 [] "w" [.jnull]).1 (by norm_num),
   (state_merge_rule 2 1 [] "w" [.jnull]).2 (by norm_num)⟩

/-- C2: after any finite sequence of `state` messages the balance equals
the maximum of the initial balance and all applied balances, and a single
step never decreases the balance. -/
theorem state_sequence_balance_max (q : ℚ) (h0 : List JVal)
    (msgs : List (String × ℚ × List JVal)) :
    (applyStates ⟨.jnum q, h0⟩ msgs).balance
        = .jnum (msgs.foldl (fun a m => max a m.2.1) q)
    ∧ ∀ (q' : ℚ) (h' : List JVal) (m : String × ℚ × List JVal),
        ∃ q'' : ℚ, (applyStates ⟨.jnum q', h'⟩ [m]).balance = .jnum q''
          ∧ q' ≤ q'' := by
  constructor
  · induction msgs generalizing q h0 with
    | nil => simp [applyStates]
    | cons m ms ih =>
      obtain ⟨wn, b, ts⟩ := m
      simp only [applyStates, List.foldl_cons] at ih ⊢
      rw [processParsed_stateMsg]
      by_cases hqb : q < b
      · rw [if_pos hqb, max_eq_right hqb.le]
        exact ih b (h0 ++ ts)
      · rw [if_neg hqb, max_eq_left (not_lt.mp hqb)]
        exact ih q h0
  · intro q' h' m
    obtain ⟨wn, b, ts⟩ := m
    refine ⟨max q' b, ?_, le_max_left _ _⟩
    simp only [applyStates, List.foldl_cons, List.foldl_nil,
      processParsed_stateMsg]
    by_cases hqb : q' < b
    · simp [hqb, max_eq_right hqb.le]
    · simp [hqb, max_eq_left (not_lt.mp hqb)]

/-- C6: a well-formed `transaction` message appends exactly one record —
its payload — to the end of the history, for every current view (so
independently of the balance and of any previously recorded `txId`), with
the balance unchanged and nothing else modified. -/
theorem transaction_appends_one (w : WalletView) (fs : List (String × JVal)) :
    processParsed w (transactionMsg (.jobj fs))
        = ({ w with history := w.history ++ [.jobj fs] }, false, false)
    ∧ (processParsed w (transactionMsg (.jobj fs))).1.history.length
        = w.history.length + 1 := by
  refine ⟨processParsed_transactionMsg w fs, ?_⟩
  rw [processParsed_transactionMsg w fs]
  simp

/-- A closed session is inert for one chunk. -/
theorem sessionStep_closed (s : Session) (c : Chunk) (h : s.closed = true) :
    sessionStep s c = s := by
  simp [sessionStep, h]

/-- A closed session is inert for a whole chunk sequence. -/
theorem sessionRun_closed (s : Session) (cs : List Chunk)
    (h : s.closed = true) :
    sessionRun s cs = s := by
  induction cs with
  | nil => rfl
  | cons c cs ih =>
      simp only [sessionRun, List.foldl_cons, sessionStep_closed s c h]
      exact ih

/-- `typeIs t s` holds exactly when the property is the string `s`. -/
theorem typeIs_true_iff (t : Option JVal) (s : String) :
    typeIs t s = true ↔ t = some (.jstr s) := by
  cases t with
  | none => simp [typeIs]
  | some v => cases v <;> simp [typeIs]

/-- A parsed non-null message whose discriminator is missing or outside
the three recognized kinds reaches the warn-only `else` branch: no throw,
no state push, view unchanged. -/
theorem processParsed_unactionable (w : WalletView) (msg : JVal)
    (hn : msg ≠ .jnull)
    (h1 : typeIs (jvField msg "type") "transaction" = false)
    (h2 : typeIs (jvField msg "type") "state-request" = false)
    (h3 : typeIs (jvField msg "type") "state" = false) :
    processParsed w msg = (w, false, false) := by
  cases msg with
  | jnull => exact absurd rfl hn
  | jbool b => simp [processParsed, jvField, typeIs]
  | jnum q => simp [processParsed, jvField, typeIs]
  | jstr s => simp [processParsed, jvField, typeIs]
  | jarr xs => simp [processParsed, jvField, typeIs]
  | jobj fs => simp [processParsed, h1, h2, h3]

/-- Any message carrying the `state-request` discriminator (whatever its
other fields) triggers exactly a state push: no throw, view unchanged. -/
theorem processParsed_stateRequest (w : WalletView) (msg : JVal)
    (ht : typeIs (jvField msg "type") "state-request" = true) :
    processParsed w msg = (w, false, true) := by
  have ht' := (typeIs_true_iff _ _).mp ht
  cases msg with
  | jnull => simp [jvField] at ht'
  | jbool b => simp [jvField] at ht'
  | jnum q => simp [jvField] at ht'
  | jstr s2 => simp [jvField] at ht'
  | jarr xs => simp [jvField] at ht'
  | jobj fs => simp [processParsed, ht', typeIs]

/-- A message of a recognized payload-carrying kind (`transaction` or
`state`) whose `data` is absent or `null` throws while processing the
payload (destructuring / property access on `undefined`/`null`). -/
theorem processParsed_bad_payload (w : WalletView) (msg : JVal)
    (htype : typeIs (jvField msg "type") "transaction" = true
      ∨ typeIs (jvField msg "type") "state" = true)
    (hdata : jvField msg "data" = none ∨ jvField msg "data" = some .jnull) :
    (processParsed w msg).2.1 = true := by
  rcases htype with ht | ht <;> have ht' := (typeIs_true_iff _ _).mp ht
  · cases msg with
    | jnull => simp [jvField] at ht'
    | jbool b => simp [jvField] at ht'
    | jnum q => simp [jvField] at ht'
    | jstr s2 => simp [jvField] at ht'
    | jarr xs => simp [jvField] at ht'
    | jobj fs =>
        rcases hdata with hd | hd <;>
          simp [processParsed, ht', typeIs, hd]
  · cases msg with
    | jnull => simp [jvField] at ht'
    | jbool b => simp [jvField] at ht'
    | jnum q => simp [jvField] at ht'
    | jstr s2 => simp [jvField] at ht'
    | jarr xs => simp [jvField] at ht'
    | jobj fs =>
        rcases hdata with hd | hd <;>
          simp [processParsed, ht', typeIs, hd]

/-- C3 counterexample: a parseable message whose kind is outside the three
recognized kinds (here `type: "ping"`) is not a well-formed message of a
recognized kind, yet the handler's `else` branch only warns: the session is
returned unchanged and the malformed counter is *not* incremented, contrary
to the claimed "increments by exactly one". -/
theorem unknown_kind_not_counted_cex :
    sessionStep ⟨⟨.jnum 0, []⟩, 0, false, 0⟩
        (.parsed (.jobj [("type", .jstr "ping")]))
      = ⟨⟨.jnum 0, []⟩, 0, false, 0⟩
    ∧ (sessionStep ⟨⟨.jnum 0, []⟩, 0, false, 0⟩
        (.parsed (.jobj [("type", .jstr "ping")]))).malformed ≠ 1 := by
  exact ⟨rfl, by decide⟩

/-- C3 amended: handling an inbound chunk never crashes (the session step
is total) and on an open session the malformed counter moves as follows —
it increments by exactly one for a chunk that fails to parse (view
unchanged) and for every parsed message whose processing throws, which for
the recognized payload-carrying kinds (`transaction`, `state`) happens
whenever the `data` payload is absent or `null`; it increments by zero for
well-formed messages of each recognized kind (`state` with numeric balance
and array payload, `transaction` with an object record, and every message
carrying the `state-request` discriminator, which only triggers a state
push); and it increments by zero for parseable messages whose kind is
missing or unrecognized, which are only warned about and leave the whole
session unchanged. -/
theorem malformed_counter_policy (s : Session) (hopen : s.closed = false) :
    ((sessionStep s .unparseable).malformed = s.malformed + 1
      ∧ (sessionStep s .unparseable).view = s.view)
    ∧ (∀ v : JVal, (processParsed s.view v).2.1 = true →
        (sessionStep s (.parsed v)).malformed = s.malformed + 1)
    ∧ (∀ msg : JVal,
        (typeIs (jvField msg "type") "transaction" = true
          ∨ typeIs (jvField msg "type") "state" = true) →
        (jvField msg "data" = none ∨ jvField msg "data" = some .jnull) →
        (processParsed s.view msg).2.1 = true
          ∧ (sessionStep s (.parsed msg)).malformed = s.malformed + 1)
    ∧ (∀ (q b : ℚ) (wn : String) (ts h0 : List JVal), s.view = ⟨.jnum q, h0⟩ →
        (sessionStep s (.parsed (stateMsg wn (.jnum b) (.jarr ts)))).malformed
          = s.malformed)
    ∧ (∀ fs : List (String × JVal),
        (sessionStep s (.parsed (transactionMsg (.jobj fs)))).malformed
          = s.malformed)
    ∧ (∀ msg : JVal, typeIs (jvField msg "type") "state-request" = true →
        sessionStep s (.parsed msg) = { s with sent := s.sent + 1 })
    ∧ (∀ msg : JVal, msg ≠ .jnull →
        typeIs (jvField msg "type") "transaction" = false →
        typeIs (jvField msg "type") "state-request" = false →
        typeIs (jvField msg "type") "state" = false →
        sessionStep s (.parsed msg) = s) := by
  obtain ⟨sv, m, c, sn⟩ := s
  simp only at hopen
  subst hopen
  have hB : ∀ v : JVal, (processParsed sv v).2.1 = true →
      (sessionStep ⟨sv, m, false, sn⟩ (.parsed v)).malformed = m + 1 := by
    intro v hv
    simp [sessionStep, hv]
  refine ⟨⟨rfl, rfl⟩, hB, ?_, ?_, ?_, ?_, ?_⟩
  · intro msg htype hdata
    have hthrow := processParsed_bad_payload sv msg htype hdata
    exact ⟨hthrow, hB msg hthrow⟩
  · intro q b wn ts h0 hv
    simp only at hv
    subst hv
    by_cases hqb : q < b
    · simp [sessionStep, processParsed_stateMsg, hqb]
    · simp [sessionStep, processParsed_stateMsg, hqb]
  · intro fs
    simp [sessionStep, processParsed_transactionMsg]
  · intro msg ht
    have hpp := processParsed_stateRequest sv msg ht
    simp [sessionStep, hpp]
  · intro msg hn h1 h2 h3
    have hpp := processParsed_unactionable sv msg hn h1 h2 h3
    simp [sessionStep, hpp]

/-- Witness for C3 amended: on a fresh open session, an unparseable chunk
moves the counter to 1; a `transaction` message with no `data` throws and
moves it to 1; a well-formed `state` message leaves it at 0; a
`state-request` message only sends a state push; an unknown-kind message
changes nothing at all. -/
theorem malformed_counter_policy_witness :
    (sessionStep ⟨⟨.jnum 0, []⟩, 0, false, 0⟩ .unparseable).malformed = 0 + 1
    ∧ (sessionStep ⟨⟨.jnum 0, []⟩, 0, false, 0⟩
          (.parsed (.jobj [("type", .jstr "transaction")]))).malformed = 0 + 1
    ∧ (sessionStep ⟨⟨.jnum 0, []⟩, 0, false, 0⟩
          (.parsed (stateMsg "w" (.jnum 1) (.jarr [])))).malformed = 0
    ∧ sessionStep ⟨⟨.jnum 0, []⟩, 0, false, 0⟩
          (.parsed (.jobj [("type", .jstr "state-request")]))
        = ⟨⟨.jnum 0, []⟩, 0, false, 1⟩
    ∧ sessionStep ⟨⟨.jnum 0, []⟩, 0, false, 0⟩
          (.parsed (.jobj [("type", .jstr "ping")]))
        = ⟨⟨.jnum 0, []⟩, 0, false, 0⟩ := by
  refine ⟨?_, ?_, ?_, ?_, ?_⟩
  · exact (malformed_counter_policy ⟨⟨.jnum 0, []⟩, 0, false, 0⟩ rfl).1.1
  · exact ((malformed_counter_policy ⟨⟨.jnum 0, []⟩, 0, false, 0⟩ rfl).2.2.1
      (.jobj [("type", .jstr "transaction")]) (Or.inl rfl) (Or.inl rfl)).2
  · exact (malformed_counter_policy ⟨⟨.jnum 0, []⟩, 0, false, 0⟩ rfl).2.2.2.1
      0 1 "w" [] [] rfl
  · exact (malformed_counter_policy ⟨⟨.jnum 0, []⟩, 0, false, 0⟩
      rfl).2.2.2.2.2.1 (.jobj [("type", .jstr "state-request")]) rfl
  · exact (malformed_counter_policy ⟨⟨.jnum 0, []⟩, 0, false, 0⟩
      rfl).2.2.2.2.2.2 (.jobj [("type", .jstr "ping")])
      (fun hc => JVal.noConfusion hc) rfl rfl rfl

/-- C5: a closed session dispatches nothing (one step and whole runs are
inert); on an open session the malformed counter grows by one exactly on a
chunk whose processing throws, the session closes exactly when such a chunk
pushes the counter past 3 (`connection.destroy()`), and a closing step
sends nothing to the peer. -/
theorem session_close_policy (s : Session) (c : Chunk) (cs : List Chunk) :
    (s.closed = true → sessionStep s c = s ∧ sessionRun s cs = s)
    ∧ (s.closed = false →
        (sessionStep s c).malformed
            = s.malformed + (if chunkThrows s.view c then 1 else 0)
        ∧ ((sessionStep s c).closed = true ↔
            chunkThrows s.view c = true ∧ 3 < s.malformed + 1)
        ∧ ((sessionStep s c).closed = true → (sessionStep s c).sent = s.sent)) := by
  constructor
  · intro h
    exact ⟨sessionStep_closed s c h, sessionRun_closed s cs h⟩
  · intro h
    obtain ⟨sv, m, cl, sn⟩ := s
    simp only at h
    subst h
    cases c with
    | unparseable =>
        refine ⟨by simp [sessionStep, chunkThrows], ?_, ?_⟩
        · simp [sessionStep, chunkThrows]
        · intro _
          simp [sessionStep]
    | parsed v =>
        cases hth : (processParsed sv v).2.1 with
        | false =>
            refine ⟨?_, ?_, ?_⟩
            · simp [sessionStep, chunkThrows, hth]
            · simp [sessionStep, chunkThrows, hth]
            · intro hcl
              simp [sessionStep, hth] at hcl
        | true =>
            refine ⟨?_, ?_, ?_⟩
            · simp [sessionStep, chunkThrows, hth]
            · simp [sessionStep, chunkThrows, hth]
            · intro _
              simp [sessionStep, hth]

/-- Witness for C5: the fourth malformed chunk closes the session, and a
closed session ignores a further chunk sequence. -/
theorem session_close_policy_witness :
    (sessionStep ⟨⟨.jnum 0, []⟩, 3, false, 0⟩ .unparseable).closed = true
    ∧ sessionRun ⟨⟨.jnum 0, []⟩, 4, true, 0⟩ [.unparseable, .parsed .jnull]
        = ⟨⟨.jnum 0, []⟩, 4, true, 0⟩ :=
  ⟨((session_close_policy ⟨⟨.jnum 0, []⟩, 3, false, 0⟩ .unparseable []).2
      rfl).2.1.mpr ⟨rfl, by norm_num⟩,
   ((session_close_policy ⟨⟨.jnum 0, []⟩, 4, true, 0⟩ .unparseable
      [.unparseable, .parsed .jnull]).1 rfl).2⟩

/-- C7 counterexample: a parseable message with *no* kind discriminator
(`{"data": null}`) is claimed to be a decode failure counted as malformed;
the code instead falls into the unknown-kind `else` branch, warns, and
leaves the session — including the malformed counter — unchanged. -/
theorem missing_type_not_counted_cex :
    sessionStep ⟨⟨.jnum 0, []⟩, 0, false, 0⟩
        (.parsed (.jobj [("data", .jnull)]))
      = ⟨⟨.jnum 0, []⟩, 0, false, 0⟩
    ∧ (sessionStep ⟨⟨.jnum 0, []⟩, 0, false, 0⟩
        (.parsed (.jobj [("data", .jnull)]))).malformed ≠ 1 := by
  exact ⟨rfl, by decide⟩

/-- C7 amended: a parseable message whose discriminator is missing *or*
outside the three recognized kinds is accepted as decoded-but-unactionable
(warned, view unchanged, not counted as malformed); what is counted as a
decode/processing failure is an unparseable chunk, or a parsed `null`
(whose property access throws). -/
theorem decode_failure_policy (w : WalletView) (msg : JVal)
    (hn : msg ≠ .jnull)
    (h1 : typeIs (jvField msg "type") "transaction" = false)
    (h2 : typeIs (jvField msg "type") "state-request" = false)
    (h3 : typeIs (jvField msg "type") "state" = false) :
    processParsed w msg = (w, false, false)
    ∧ chunkThrows w .unparseable = true
    ∧ processParsed w .jnull = (w, true, false) := by
  exact ⟨processParsed_unactionable w msg hn h1 h2 h3, rfl, rfl⟩

/-- Witness for C7 amended: a message whose `type` is the number 7 (a
discriminator that is no recognized kind) is processed as a no-op without
throwing. -/
theorem decode_failure_policy_witness :
    processParsed ⟨.jnum 0, []⟩ (.jobj [("type", .jnum 7)])
      = (⟨.jnum 0, []⟩, false, false) :=
  (decode_failure_policy ⟨.jnum 0, []⟩ (.jobj [("type", .jnum 7)])
      (fun h => JVal.noConfusion h) rfl rfl rfl).1

/-- C4 counterexample: two active sessions where the write to the first
connection throws.  The claim says the failure is caught per-connection and
the second peer still receives the message; the `forEach` has no
per-connection handler, so the thrown write aborts the loop — zero
connections receive the message and the error escapes to the top level. -/
theorem broadcast_abort_cex :
    broadcastTransaction [false, true] = (0, true)
    ∧ (broadcastTransaction [false, true]).1 ≠ 1 := by
  exact ⟨rfl, by decide⟩

/-- C4 amended: the broadcast writes to the connections in order; when all
writes succeed every one of the N connections receives the message, but a
failing write throws out of the (handler-less) `forEach`, so exactly the
connections before the first failure receive it, nothing is retried, and
the error propagates to the top-level workflow handler. -/
theorem broadcast_stops_at_first_failure (conns : List Bool) :
    broadcastTransaction conns
      = ((conns.takeWhile (fun b => b)).length, !conns.all (fun b => b)) := by
  induction conns with
  | nil => rfl
  | cons ok rest ih =>
      cases ok with
      | true =>
          simp [broadcastTransaction, ih, List.takeWhile_cons, List.all_cons]
      | false =>
          simp [broadcastTransaction, List.takeWhile_cons, List.all_cons]

/-- C10 counterexample: a `state` message with a strictly greater balance
whose `transactions` payload is the string `"ab"` — not an array — does
*not* make the append throw: strings are iterable, so the spread pushes the
characters "a","b", the handler returns normally and the malformed counter
stays 0, contradicting the claimed throw / unchanged history / counter
increment for every non-array payload. -/
theorem state_string_transactions_cex :
    processParsed ⟨.jnum 0, []⟩ (stateMsg "w" (.jnum 100) (.jstr "ab"))
      = (⟨.jnum 100, [.jstr "a", .jstr "b"]⟩, false, false)
    ∧ (sessionStep ⟨⟨.jnum 0, []⟩, 0, false, 0⟩
        (.parsed (stateMsg "w" (.jnum 100) (.jstr "ab")))).malformed = 0 := by
  exact ⟨rfl, rfl⟩

/-- C10 amended: for a `state` message whose balance strictly exceeds the
local one but whose `transactions` payload is absent or not iterable
(neither an array nor a string: absent, `null`, a boolean, a number, or a
plain object), the merge is not atomic — `currentBalance` is assigned
before the append is attempted, the spread then throws, so the new higher
balance persists while the history is unchanged, and the session counts
the message as malformed (counter + 1).  A string payload, although not an
array, is iterable and spreads without throwing. -/
theorem state_merge_not_atomic (q b : ℚ) (h0 : List JVal) (wn : String)
    (t : Option JVal) (hqb : q < b)
    (harr : ∀ xs, t ≠ some (.jarr xs)) (hstr : ∀ s, t ≠ some (.jstr s)) :
    processParsed ⟨.jnum q, h0⟩ (stateMsgOpt wn (.jnum b) t)
      = (⟨.jnum b, h0⟩, true, false)
    ∧ ∀ (m sn : ℕ),
        sessionStep ⟨⟨.jnum q, h0⟩, m, false, sn⟩
            (.parsed (stateMsgOpt wn (.jnum b) t))
          = ⟨⟨.jnum b, h0⟩, m + 1, decide (3 < m + 1), sn⟩ := by
  have hpp : processParsed ⟨.jnum q, h0⟩ (stateMsgOpt wn (.jnum b) t)
      = (⟨.jnum b, h0⟩, true, false) := by
    cases t with
    | none =>
        simp [processParsed, stateMsgOpt, jvField, lookupLast, typeIs, jsGT,
          toNum, spreadElems, hqb]
    | some v =>
        cases v with
        | jarr xs => exact absurd rfl (harr xs)
        | jstr s => exact absurd rfl (hstr s)
        | jnull =>
            simp [processParsed, stateMsgOpt, jvField, lookupLast, typeIs,
              jsGT, toNum, spreadElems, hqb]
        | jbool bb =>
            simp [processParsed, stateMsgOpt, jvField, lookupLast, typeIs,
              jsGT, toNum, spreadElems, hqb]
        | jnum qq =>
            simp [processParsed, stateMsgOpt, jvField, lookupLast, typeIs,
              jsGT, toNum, spreadElems, hqb]
        | jobj fs =>
            simp [processParsed, stateMsgOpt, jvField, lookupLast, typeIs,
              jsGT, toNum, spreadElems, hqb]
  refine ⟨hpp, ?_⟩
  intro m sn
  simp [sessionStep, hpp]

/-- Witness for C10 amended: balance 100 over 0 with a `null` transactions
payload updates the balance, keeps the history, throws, and makes the
session count one malformed message. -/
theorem state_merge_not_atomic_witness :
    processParsed ⟨.jnum 0, []⟩ (stateMsgOpt "w" (.jnum 100) (some .jnull))
      = (⟨.jnum 100, []⟩, true, false)
    ∧ sessionStep ⟨⟨.jnum 0, []⟩, 0, false, 0⟩
        (.parsed (stateMsgOpt "w" (.jnum 100) (some .jnull)))
      = ⟨⟨.jnum 100, []⟩, 1, false, 0⟩ := by
  have h := state_merge_not_atomic 0 100 [] "w" (some .jnull) (by norm_num)
      (fun xs hc => by injection hc with hc'; exact JVal.noConfusion hc')
      (fun s hc => by injection hc with hc'; exact JVal.noConfusion hc')
  refine ⟨h.1, ?_⟩
  rw [h.2 0 0]
  rfl

/-- If every one of `rem ≥ 1` remaining attempts fails, the loop makes all
`rem` calls, waits `delay, 2·delay, …` between them, and rethrows the error
of the last attempt. -/
theorem retryLoop_all_fail (fn : ℕ → Except String ℕ) :
    ∀ (rem attempt delay : ℕ), 1 ≤ rem →
      (∀ i, attempt ≤ i → i < attempt + rem → (fn i).isOk = false) →
      ∃ e, fn (attempt + rem - 1) = .error e
        ∧ retryLoop fn rem attempt delay
            = (some (.error e), rem,
               (List.range (rem - 1)).map (fun j => delay * 2 ^ j)) := by
  intro rem
  induction rem with
  | zero => intro attempt delay h1 _; omega
  | succ r ih =>
      intro attempt delay _ hfail
      have hf0 : (fn attempt).isOk = false := hfail attempt le_rfl (by omega)
      cases hfe : fn attempt with
      | ok a => rw [hfe] at hf0; simp [Except.isOk, Except.toBool] at hf0
      | error e0 =>
          rcases Nat.eq_zero_or_pos r with hr0 | hrpos
          · subst hr0
            refine ⟨e0, by simpa using hfe, ?_⟩
            simp [retryLoop, hfe]
          · obtain ⟨e, hfe5, hloop⟩ :=
              ih (attempt + 1) (delay * 2) hrpos
                (fun i hi1 hi2 => hfail i (by omega) (by omega))
            refine ⟨e, ?_, ?_⟩
            · have harith : attempt + 1 + r - 1 = attempt + (r + 1) - 1 := by
                omega
              rw [← harith]
              exact hfe5
            · have hrne : r ≠ 0 := by omega
              simp only [retryLoop, hfe, hrne, if_false, hloop]
              refine congrArg _ (congrArg _ ?_)
              obtain ⟨r', rfl⟩ : ∃ r', r = r' + 1 := ⟨r - 1, by omega⟩
              simp only [Nat.add_sub_cancel, List.range_succ_eq_map,
                List.map_cons, List.map_map, pow_zero, mul_one,
                Nat.succ_sub_one]
              refine congrArg _ (List.map_congr_left fun j _ => ?_)
              simp [Function.comp, pow_succ]
              ring

/-- If the first `k - 1` attempts fail and attempt `k ≤ rem` succeeds, the
loop returns that value after exactly `k` calls, having waited
`delay, 2·delay, …, 2^(k-2)·delay` between them. -/
theorem retryLoop_succeeds_at (fn : ℕ → Except String ℕ) :
    ∀ (k rem attempt delay v : ℕ), 1 ≤ k → k ≤ rem →
      (∀ i, attempt ≤ i → i < attempt + k - 1 → (fn i).isOk = false) →
      fn (attempt + k - 1) = .ok v →
      retryLoop fn rem attempt delay
        = (some (.ok v), k,
           (List.range (k - 1)).map (fun j => delay * 2 ^ j)) := by
  intro k
  induction k with
  | zero => intro rem attempt delay v h1 _ _ _; omega
  | succ k' ih =>
      intro rem attempt delay v _ hkrem hfail hok
      obtain ⟨r, rfl⟩ : ∃ r, rem = r + 1 := ⟨rem - 1, by omega⟩
      rcases Nat.eq_zero_or_pos k' with hk0 | hk'pos
      · subst hk0
        have hok' : fn attempt = .ok v := by simpa using hok
        simp [retryLoop, hok']
      · have hf0 : (fn attempt).isOk = false := hfail attempt le_rfl (by omega)
        cases hfe : fn attempt with
        | ok a => rw [hfe] at hf0; simp [Except.isOk, Except.toBool] at hf0
        | error e0 =>
            have hrne : r ≠ 0 := by omega
            have hrec := ih r (attempt + 1) (delay * 2) v hk'pos (by omega)
              (fun i hi1 hi2 => hfail i (by omega) (by omega))
              (by
                have harith : attempt + 1 + k' - 1 = attempt + (k' + 1) - 1 := by
                  omega
                rw [harith]
                exact hok)
            simp only [retryLoop, hfe, hrne, if_false, hrec]
            refine congrArg _ (congrArg _ ?_)
            obtain ⟨k'', rfl⟩ : ∃ m, k' = m + 1 := ⟨k' - 1, by omega⟩
            simp only [Nat.add_sub_cancel, List.range_succ_eq_map,
              List.map_cons, List.map_map, pow_zero, mul_one,
              Nat.succ_sub_one]
            refine congrArg _ (List.map_congr_left fun j _ => ?_)
            simp [Function.comp, pow_succ]
            ring

/-- C8: `retryWithBackoff` with its defaults calls the function at most 5
times — if the first success is at attempt `k ≤ 5` it returns that value
after exactly `k` calls, having scheduled delays of 500·2^(i−1) ms before
each retry `i + 1` (500 ms, 1000 ms, doubling); if all 5 attempts fail, the
error of the final attempt propagates to the caller. -/
theorem retryWithBackoff_spec (fn : ℕ → Except String ℕ) :
    (∀ k v, 1 ≤ k → k ≤ 5 →
        (∀ i, 1 ≤ i → i < k → (fn i).isOk = false) → fn k = .ok v →
        retryWithBackoff fn
          = (some (.ok v), k,
             (List.range (k - 1)).map (fun i => 500 * 2 ^ i)))
    ∧ ((∀ i, 1 ≤ i → i ≤ 5 → (fn i).isOk = false) →
        ∃ e, fn 5 = .error e
          ∧ retryWithBackoff fn
              = (some (.error e), 5, [500, 1000, 2000, 4000])) := by
  constructor
  · intro k v hk1 hk5 hfail hok
    have h := retryLoop_succeeds_at fn k 5 1 500 v hk1 hk5
      (fun i hi1 hi2 => hfail i hi1 (by omega))
      (by
        have harith : 1 + k - 1 = k := by omega
        rw [harith]
        exact hok)
    exact h
  · intro hfail
    obtain ⟨e, he, hloop⟩ := retryLoop_all_fail fn 5 1 500 (by norm_num)
      (fun i hi1 hi2 => hfail i hi1 (by omega))
    refine ⟨e, by simpa using he, ?_⟩
    rw [retryWithBackoff, hloop]
    refine congrArg _ (congrArg _ ?_)
    decide

/-- Witness for C8: a function failing on attempts 1 and 2 and succeeding
on attempt 3 completes on the third call with waits of 500 ms then
1000 ms. -/
theorem retryWithBackoff_spec_witness :
    retryWithBackoff (fun i => if i ≤ 2 then .error "rpc down" else .ok 42)
      = (some (.ok 42), 3, [500, 1000]) := by
  have h := (retryWithBackoff_spec
      (fun i => if i ≤ 2 then .error "rpc down" else .ok 42)).1 3 42
    (by norm_num) (by norm_num)
    (by
      intro i h1 h2
      interval_cases i <;> simp [Except.isOk, Except.toBool])
    (by norm_num)
  rw [h]
  refine congrArg _ (congrArg _ ?_)
  decide

/-- C9: `sendBitcoin` throws (it can never return a transaction id) and
issues no `sendtoaddress` RPC call whenever the amount is not a positive
number (NaN, zero, or negative) or the wallet name is not a non-empty
string (a non-string value, or the empty string). -/
theorem sendBitcoin_rejects_invalid (wn : WName) (addr : String) (amount : Amt)
    (rpc : String → Amt → Except String String)
    (h : amount = .nan ∨ (∃ q, amount = .num q ∧ q ≤ 0)
         ∨ wn = .nonStr ∨ wn = .str "") :
    (∀ tx, (sendBitcoin wn addr amount rpc).1 ≠ .ok tx)
    ∧ (sendBitcoin wn addr amount rpc).2 = [] := by
  have key : ∃ e, sendBitcoin wn addr amount rpc = (.error e, []) := by
    rcases h with rfl | ⟨q, rfl, hq⟩ | rfl | rfl
    · cases wn with
      | nonStr => exact ⟨_, rfl⟩
      | str s =>
          by_cases hs : jsTrim s = ""
          · exact ⟨"Invalid wallet name. It must be a non-empty string.",
              by simp [sendBitcoin, validateWalletName, hs]⟩
          · exact ⟨"Invalid amount. It must be a positive number.",
              by simp [sendBitcoin, validateWalletName, validateAmount, hs]⟩
    · cases wn with
      | nonStr => exact ⟨_, rfl⟩
      | str s =>
          by_cases hs : jsTrim s = ""
          · exact ⟨"Invalid wallet name. It must be a non-empty string.",
              by simp [sendBitcoin, validateWalletName, hs]⟩
          · exact ⟨"Invalid amount. It must be a positive number.",
              by simp [sendBitcoin, validateWalletName, validateAmount, hs,
                hq]⟩
    · exact ⟨_, rfl⟩
    · refine ⟨"Invalid wallet name. It must be a non-empty string.", ?_⟩
      simp [sendBitcoin, validateWalletName, jsTrim]
  obtain ⟨e, he⟩ := key
  rw [he]
  exact ⟨fun tx h' => Except.noConfusion h', rfl⟩

/-- Witness for C9: a zero amount with a valid wallet name is rejected with
no RPC call issued. -/
theorem sendBitcoin_rejects_invalid_witness :
    (∀ tx, (sendBitcoin (.str "mywallet") "addr" (.num 0)
        (fun _ _ => .ok "txid")).1 ≠ .ok tx)
    ∧ (sendBitcoin (.str "mywallet") "addr" (.num 0)
        (fun _ _ => .ok "txid")).2 = [] :=
  sendBitcoin_rejects_invalid (.str "mywallet") "addr" (.num 0)
    (fun _ _ => .ok "txid") (Or.inr (Or.inl ⟨0, rfl, le_refl 0⟩))
